import Mathlib

/-!
Verification development for the post-scheduler backend.

This file gives a shallow embedding, in Lean 4, of the scheduling core of
the repository: the durable post operations of `internal/db/db.go`, the
worker retry logic of the scheduler package (`handlePublishError`), the
Redis-backed `Queue` of the scheduler package (`Enqueue`, `Remove`,
`GetDuePosts`, `GetQueueLength`), the `Notifier` of
`internal/notifier/notifier.go` (`notifyLocal`, `listenRedis`), and the SSE
stream handler `StreamPosts` with its `hashPosts` fingerprint.

Machine integers are modelled as `Int`/`Nat` (timestamps are Unix seconds);
fallible store calls are modelled with explicit outcome parameters
(`Option String` connectivity errors) so that error propagation is visible
in the embedding. UUIDs travel as their canonical strings; `uuid.Parse` of
the google/uuid library is an external collaborator and is therefore a
parameter `parse : String → Option String` of the definitions that use it.
-/

/-! ## Data model: posts (internal/models, internal/db) -/

/-- Post status as constrained by the database: one of `scheduled`,
`published`, `failed`. -/
inductive Status where
  | scheduled
  | published
  | failed
deriving DecidableEq, Repr

/-- Rendering of a status as the string stored in the `status` column and
used by `fmt.Sprintf` in `hashPosts`. -/
def Status.str : Status → String
  | .scheduled => "scheduled"
  | .published => "published"
  | .failed => "failed"

/-- The `models.Post` record, restricted to the columns the embedded
operations read or write. Timestamps are Unix seconds (`Int`); nullable
columns are `Option`. -/
structure Post where
  id : String
  userId : String
  title : Option String
  content : String
  channel : String
  status : Status
  scheduledAt : Int
  publishedAt : Option Int
  retryCount : Nat
  lastError : Option String
  nextRetryAt : Option Int
  createdAt : Int
  updatedAt : Int
deriving DecidableEq, Repr

/-! ## Durable post operations (internal/db/db.go)

Each SQL `UPDATE ... WHERE id = $1 ...` is embedded as its row-level effect
on the single post row with the matching id: the function receives that row
and returns the updated row together with what the Go function returns
(`RETURNING` row or `nil` on `pgx.ErrNoRows`). `NOW()` is passed in as
`now`. -/

/-- `PublishPost` (db.go): `UPDATE posts SET status = published,
published_at = NOW(), updated_at = NOW() WHERE id = $1 AND status =
scheduled RETURNING ...`. Returns the updated row, and `none` when the
guard does not match (`pgx.ErrNoRows` path returns `nil, nil`). -/
def publishPost (now : Int) (p : Post) : Post × Option Post :=
  if p.status = .scheduled then
    let q := { p with status := .published, publishedAt := some now, updatedAt := now }
    (q, some q)
  else
    (p, none)

/-- `MarkPostFailed` (db.go): `UPDATE posts SET status = failed,
last_error = $2, updated_at = NOW() WHERE id = $1`. Note the `WHERE`
clause has no status guard: the row is updated whatever its current
status. -/
def markPostFailed (errorMsg : String) (now : Int) (p : Post) : Post :=
  { p with status := .failed, lastError := some errorMsg, updatedAt := now }

/-- `ScheduleRetry` (db.go): `UPDATE posts SET retry_count = retry_count +
1, last_error = $2, next_retry_at = $3, updated_at = NOW() WHERE id = $1
AND status = scheduled`. -/
def scheduleRetry (nextRetryAt : Int) (errorMsg : String) (now : Int) (p : Post) : Post :=
  if p.status = .scheduled then
    { p with
      retryCount := p.retryCount + 1
      lastError := some errorMsg
      nextRetryAt := some nextRetryAt
      updatedAt := now }
  else
    p

/-- `UpdatePost` (db.go): `UPDATE posts SET title = COALESCE($3, title),
content = COALESCE($4, content), channel = COALESCE($5, channel),
scheduled_at = COALESCE($6, scheduled_at), updated_at = NOW() WHERE id =
$1 AND user_id = $2 AND status = scheduled RETURNING ...`. Returns the
updated row and the `RETURNING` result (`none` on no match). -/
def updatePost (userId : String) (title content channel : Option String)
    (schedAt : Option Int) (now : Int) (p : Post) : Post × Option Post :=
  if p.userId = userId ∧ p.status = .scheduled then
    let q := { p with
      title := match title with | some t => some t | none => p.title
      content := content.getD p.content
      channel := channel.getD p.channel
      scheduledAt := schedAt.getD p.scheduledAt
      updatedAt := now }
    (q, some q)
  else
    (p, none)

/-- `DeletePost` (db.go): `DELETE FROM posts WHERE id = $1 AND user_id =
$2 AND status = scheduled`. Returns the surviving row (`none` when
deleted) and `RowsAffected() > 0`. -/
def deletePost (userId : String) (p : Post) : Option Post × Bool :=
  if p.userId = userId ∧ p.status = .scheduled then
    (none, true)
  else
    (some p, false)

/-! ## Worker retry logic (scheduler worker, handlePublishError) -/

/-- `MaxRetries` of the scheduler package. -/
def MaxRetries : Nat := 3

/-- The decision `handlePublishError` takes for a failed publish. -/
inductive RetryOutcome where
  | markFailed (errMsg : String)
  | scheduleAt (nextRetryAt : Int) (errMsg : String)
deriving DecidableEq, Repr

/-- `handlePublishError` (scheduler worker): with `retryCount :=
post.RetryCount + 1`, if `retryCount >= MaxRetries` mark the post failed
(and do not re-enqueue); otherwise compute `backoffMinutes = 2 ^
retryCount`, set `nextRetryAt = now + backoffMinutes` minutes, schedule
the retry in the database and re-enqueue at `nextRetryAt`. Time is Unix
seconds, so a minute is 60. -/
def handlePublishError (priorRetryCount : Nat) (errMsg : String) (now : Int) : RetryOutcome :=
  let retryCount := priorRetryCount + 1
  if retryCount ≥ MaxRetries then
    .markFailed errMsg
  else
    .scheduleAt (now + (2 ^ retryCount : Nat) * 60) errMsg

/-! ## TimeQueue: the Redis sorted set (scheduler Queue)

The backing store is the Redis sorted set at key `posts:scheduled`. It is
embedded as an association list from member string to score (Unix
seconds), with distinct members. Connectivity failures of individual
Redis commands are modelled by explicit `Option String` outcome
parameters: `none` means the command reached the store, `some e` means it
failed with error `e` (in which case the store is unchanged). -/

/-- A Redis sorted set: members paired with scores. Well formed sets have
pairwise distinct members (`ZKeysNodup`). -/
abbrev ZSet : Type := List (String × Int)

/-- Distinctness of members, as Redis guarantees for a sorted set. -/
def ZKeysNodup (z : ZSet) : Prop := (z.map Prod.fst).Nodup

instance (z : ZSet) : Decidable (ZKeysNodup z) := by
  unfold ZKeysNodup
  infer_instance

/-- Score lookup (membership with score) in the sorted set. -/
def zscore (z : ZSet) (m : String) : Option Int :=
  (z.find? (fun e => e.1 == m)).map Prod.snd

/-- `ZADD`: upsert — when the member exists its score is overwritten,
otherwise the member is inserted. -/
def zadd (z : ZSet) (m : String) (s : Int) : ZSet :=
  if z.any (fun e => e.1 == m) then
    z.map (fun e => if e.1 == m then (m, s) else e)
  else
    z ++ [(m, s)]

/-- `ZREM`: removes the member and reports how many elements were
removed (0 when absent, 1 when present for a well formed set). -/
def zrem (z : ZSet) (m : String) : ZSet × Nat :=
  (z.filter (fun e => e.1 != m), (z.filter (fun e => e.1 == m)).length)

/-- Ordering used by `ZRANGEBYSCORE`: ascending score, ties broken by the
member string (the deterministic lexicographic tie-break of Redis). -/
def zleB (a b : String × Int) : Bool :=
  a.2 < b.2 ∨ (a.2 = b.2 ∧ a.1 ≤ b.1)

/-- `ZRANGEBYSCORE key -inf now LIMIT 0 count` with scores: the members
whose score is at most `now`, ascending, truncated to `count`. -/
def zrangeByScoreDue (z : ZSet) (now : Int) (count : Nat) : List (String × Int) :=
  ((z.filter (fun e => e.2 ≤ now)).insertionSort (fun a b => zleB a b)).take count

/-- `ZCARD`: the number of members. -/
def zcard (z : ZSet) : Nat := z.length

/-! ### Queue operations (scheduler Queue methods)

Each method is embedded as a function of the current sorted set and the
connectivity outcomes of the Redis commands it issues, returning the new
sorted set and what the Go method returns (`Except` for an `error`
result). -/

/-- `Queue.Enqueue` (scheduler): `ZAdd(ctx, scheduledPostsKey, Z(score:
scheduledAt.Unix(), member: postID.String())).Err()`. A connectivity
failure of the single `ZADD` surfaces as the returned error. -/
def Queue.Enqueue (zaddOutcome : Option String) (z : ZSet) (postID : String)
    (scheduledAt : Int) : ZSet × Except String Unit :=
  match zaddOutcome with
  | some e => (z, .error e)
  | none => (zadd z postID scheduledAt, .ok ())

/-- `Queue.Remove` (scheduler): `ZRem(ctx, scheduledPostsKey,
postID.String()).Err()`. The removed-count is discarded; only a
connectivity failure of the `ZREM` surfaces as an error. -/
def Queue.Remove (zremOutcome : Option String) (z : ZSet) (postID : String) :
    ZSet × Except String Unit :=
  match zremOutcome with
  | some e => (z, .error e)
  | none => ((zrem z postID).1, .ok ())

/-- `Queue.GetQueueLength` (scheduler): `ZCard(ctx,
scheduledPostsKey).Result()`. -/
def Queue.GetQueueLength (zcardOutcome : Option String) (z : ZSet) :
    Except String Nat :=
  match zcardOutcome with
  | some e => .error e
  | none => .ok (zcard z)

/-- The claim loop of `Queue.GetDuePosts`: for each scanned member, skip
it when it is not a string that parses as a UUID; otherwise issue `ZREM`
— on a connectivity error (`zremOutcome m = some e`) or a removed-count
of zero (lost race) `continue`, else append the parsed id to the result.
The sorted set is threaded through the successful removals. -/
def claimLoop (parse : String → Option String) (zremOutcome : String → Option String) :
    List (String × Int) → ZSet → ZSet × List String
  | [], z => (z, [])
  | (m, _) :: rest, z =>
    match parse m with
    | none => claimLoop parse zremOutcome rest z
    | some postID =>
      match zremOutcome m with
      | some _ => claimLoop parse zremOutcome rest z
      | none =>
        let res := zrem z m
        if res.2 = 0 then
          claimLoop parse zremOutcome rest res.1
        else
          ((claimLoop parse zremOutcome rest res.1).1,
           postID :: (claimLoop parse zremOutcome rest res.1).2)

/-- `Queue.GetDuePosts` (scheduler): scan the due members with
`ZRangeByScoreWithScores` (a failure of the scan surfaces as the returned
error), then run the claim loop. Returns the final sorted set and the
claimed ids (as canonical UUID strings). -/
def Queue.GetDuePosts (parse : String → Option String) (scanOutcome : Option String)
    (zremOutcome : String → Option String) (z : ZSet) (now : Int) (maxCount : Nat) :
    Except String (ZSet × List String) :=
  match scanOutcome with
  | some e => .error e
  | none => .ok (claimLoop parse zremOutcome (zrangeByScoreDue z now maxCount) z)

/-! ## Concurrent claim race (GetDuePosts under concurrency)

`GetDuePosts` may run in several worker processes against the same sorted
set. The race is embedded as a small-step relation: each caller holds the
candidate list its scan returned (`pending`) and the members it has
claimed so far (`claimed`); the shared state is the sorted set membership
(scores are irrelevant to the race, so members only). A step lets one
caller process its next candidate: either the atomic `ZREM` succeeds — the
member was present, is removed from the shared set, and joins that
claims of the caller — or the candidate is dropped (parse failure, `ZREM`
connectivity error, or removed-count zero on a lost race), exactly the
`continue` branches of the loop. -/

/-- The local state of one `GetDuePosts` caller in the race. -/
structure RaceCaller where
  pending : List String
  claimed : List String
deriving DecidableEq, Repr

/-- The shared sorted-set membership plus every caller. -/
structure RaceConfig where
  shared : List String
  callers : List RaceCaller
deriving DecidableEq, Repr

/-- One interleaved step of the concurrent claim loops. `claim` is the
successful atomic `ZREM` of a parsed candidate (removed-count 1): possible
only while the member is still shared, and it removes the member as it is
claimed. `drop` is any `continue` branch: the candidate fails to parse,
the `ZREM` errors, or the removed-count is zero. -/
inductive RaceStep (parse : String → Option String) : RaceConfig → RaceConfig → Prop
  | claim (shared : List String) (pre post : List RaceCaller)
      (m : String) (rest claimed : List String)
      (hparse : (parse m).isSome) (hm : m ∈ shared) :
      RaceStep parse
        ⟨shared, pre ++ ⟨m :: rest, claimed⟩ :: post⟩
        ⟨shared.erase m, pre ++ ⟨rest, claimed ++ [m]⟩ :: post⟩
  | drop (shared : List String) (pre post : List RaceCaller)
      (m : String) (rest claimed : List String) :
      RaceStep parse
        ⟨shared, pre ++ ⟨m :: rest, claimed⟩ :: post⟩
        ⟨shared, pre ++ ⟨rest, claimed⟩ :: post⟩

/-- Any interleaving of steps. -/
abbrev RaceReach (parse : String → Option String) : RaceConfig → RaceConfig → Prop :=
  Relation.ReflTransGen (RaceStep parse)

/-- All members claimed so far, across every caller. -/
def allClaimed (cfg : RaceConfig) : List String :=
  (cfg.callers.map RaceCaller.claimed).flatten

/-! ## Notifier (internal/notifier/notifier.go) -/

/-- `UpdateType` of the notifier package. -/
inductive UpdateType where
  | create
  | update
  | delete
  | publish
deriving DecidableEq, Repr

/-- `PostUpdate`: the notification event, a user id paired with an update
type. -/
structure PostUpdate where
  userID : String
  type : UpdateType
deriving DecidableEq, Repr

/-- Capacity of a subscriber channel: `make(chan PostUpdate, 10)` in
`Subscribe`. -/
def chanCap : Nat := 10

/-- A subscriber channel buffer: the queued events, oldest first. -/
abbrev Buf : Type := List PostUpdate

/-- The non-blocking send of `notifyLocal` (`select` with a `default`
branch): the event is appended when the buffer has free space, otherwise
the channel is skipped and the buffer is unchanged. The `Bool` reports
whether the send succeeded. -/
def trySend (b : Buf) (u : PostUpdate) : Buf × Bool :=
  if b.length < chanCap then (b ++ [u], true) else (b, false)

/-- `notifyLocal` (notifier.go), acting on the subscriber list registered
under the target user: every channel receives the event by a non-blocking
send, independently of the others; the returned count is the number of
successful sends. -/
def notifyLocal (subs : List Buf) (u : PostUpdate) : List Buf × Nat :=
  (subs.map (fun b => (trySend b u).1),
   (subs.filter (fun b => (trySend b u).2)).length)

/-- Observable effects of the notifier code paths: delivery to local
subscribers, or a publish on the Redis broadcast bus. -/
inductive NotifierEffect where
  | localDeliver (u : PostUpdate)
  | busPublish (payload : String)
deriving DecidableEq, Repr

/-- Whether an effect is a publish on the cross-process bus. -/
def NotifierEffect.isBusPublish : NotifierEffect → Bool
  | .busPublish _ => true
  | .localDeliver _ => false

/-- One iteration of the `listenRedis` relay loop on a received bus
message: `json.Unmarshal` failure is logged and the message dropped;
otherwise the event goes to `notifyLocal` only. `decode` stands for
`json.Unmarshal` into a `PostUpdate`. -/
def listenRedisStep (decode : String → Option PostUpdate) (msg : String) :
    List NotifierEffect :=
  match decode msg with
  | none => []
  | some u => [.localDeliver u]

/-- The effects of the relay over a whole stream of bus messages. -/
def listenRedisTrace (decode : String → Option PostUpdate) (msgs : List String) :
    List NotifierEffect :=
  (msgs.map (listenRedisStep decode)).flatten

/-- `Notify` (notifier.go): delivers locally, then publishes the
marshalled event on the bus (when marshalling succeeds; `encode` stands
for `json.Marshal`). Included to contrast with the relay path. -/
def notifyEffects (encode : PostUpdate → Option String) (u : PostUpdate) :
    List NotifierEffect :=
  .localDeliver u ::
    (match encode u with
     | some payload => [.busPublish payload]
     | none => [])

/-! ## SSE stream handler (handlers SSEHandler.StreamPosts, hashPosts) -/

/-- The per-post fragment `fmt.Sprintf("%s:%s:%d;", p.ID, p.Status,
p.UpdatedAt.Unix())` of `hashPosts`. -/
def postTriple (p : Post) : String :=
  p.id ++ ":" ++ p.status.str ++ ":" ++ toString p.updatedAt ++ ";"

/-- `hashPosts` (handlers): `"empty"` for a nil or empty list, otherwise
the concatenation of the per-post triples in order. -/
def hashPosts (posts : List Post) : String :=
  if posts.isEmpty then "empty"
  else posts.foldl (fun acc p => acc ++ postTriple p) ""

/-- The fingerprint state of a connected stream: the hashes of the last
pushed upcoming and history lists. -/
structure SSEState where
  lastUpcomingHash : String
  lastHistoryHash : String
deriving DecidableEq, Repr

/-- The wake sources of the `select` in the push loop of `StreamPosts`:
client disconnect (`r.Context().Done()`), the 10 second keepalive ticker,
and the 5 second update ticker — on which the handler refetches both
lists (`tick` carries the fetched data, `tickFetchErr` the
`continue` branch taken when a fetch fails). The loop has no other wake
source; in particular it holds no notifier channel. -/
inductive SSEInput where
  | ctxDone
  | keepalive
  | tick (upcoming history : List Post)
  | tickFetchErr
deriving DecidableEq, Repr

/-- What the handler writes to the client. -/
inductive SSEOutput where
  | connected
  | updatePush (upcoming history : List Post)
  | keepaliveMsg
deriving DecidableEq, Repr

/-- Whether an output is a snapshot push. -/
def SSEOutput.isUpdatePush : SSEOutput → Bool
  | .updatePush _ _ => true
  | _ => false

/-- The start of `StreamPosts` after headers: fetch both lists, record
their hashes, and push the connected event plus the initial snapshot
unconditionally. -/
def streamInit (upcoming history : List Post) : SSEState × List SSEOutput :=
  (⟨hashPosts upcoming, hashPosts history⟩,
   [.connected, .updatePush upcoming history])

/-- One iteration of the push loop of `StreamPosts`: disconnect returns;
the keepalive ticker writes a keepalive comment; the update ticker
recomputes both hashes and pushes a snapshot only when one of them
changed, updating the stored hashes. Returns `none` for the state when
the handler terminates. -/
def streamStep (st : SSEState) : SSEInput → Option SSEState × List SSEOutput
  | .ctxDone => (none, [])
  | .keepalive => (some st, [.keepaliveMsg])
  | .tickFetchErr => (some st, [])
  | .tick upcoming history =>
    let uh := hashPosts upcoming
    let hh := hashPosts history
    if uh ≠ st.lastUpcomingHash ∨ hh ≠ st.lastHistoryHash then
      (some ⟨uh, hh⟩, [.updatePush upcoming history])
    else
      (some st, [])

/-- The notifier channels that `StreamPosts` registers: the handler makes
no `Subscribe` call anywhere (its only wait sources are the two tickers
and the request context), so it registers none. -/
def streamPostsNotifierSubscriptions : List Buf := []

/-! ## Composition of a failed publish attempt (worker)

`publishPost` failure path of the worker: `handlePublishError` decides,
then the durable effect and the queue effect are applied — `MarkPostFailed`
with no re-enqueue on the terminal branch, `ScheduleRetry` plus
`Queue.Enqueue` at the computed time on the retry branch (healthy store
outcomes). -/

/-- One failed publish attempt applied to the durable row and the sorted
set, per the worker failure path. -/
def applyPublishError (p : Post) (errMsg : String) (now : Int) (z : ZSet) :
    Post × ZSet :=
  match handlePublishError p.retryCount errMsg now with
  | .markFailed e => (markPostFailed e now p, z)
  | .scheduleAt t e => (scheduleRetry t e now p, zadd z p.id t)

/-! ## Concrete instances used by witnesses and counterexamples -/

/-- A canonical UUID string. -/
def uuidA : String := "11111111-1111-1111-1111-111111111111"

/-- A concrete stand-in for `uuid.Parse`: accepts exactly `uuidA`. Used
only to instantiate the `parse` parameter at concrete inputs. -/
def parse1 : String → Option String :=
  fun s => if s = uuidA then some s else none

/-- A per-command outcome where every `ZREM` hits a connectivity
failure. -/
def zremFail : String → Option String :=
  fun _ => some "redis: connection refused"

/-- A concrete published post. -/
def pPublished : Post :=
  { id := uuidA
    userId := "user-1"
    title := none
    content := "hello world"
    channel := "twitter"
    status := .published
    scheduledAt := 100
    publishedAt := some 150
    retryCount := 0
    lastError := none
    nextRetryAt := none
    createdAt := 50
    updatedAt := 150 }

/-- A concrete scheduled post with no prior attempts. -/
def pScheduled : Post :=
  { pPublished with status := .scheduled, publishedAt := none, updatedAt := 100 }

/-- A concrete stream fingerprint state. -/
def sseSt0 : SSEState := ⟨"empty", "empty"⟩

/-- A parse stand-in accepting only the member string used by the race
witness. -/
def parseA : String → Option String := fun s => if s = "a" then some s else none

/-- Race witness: initial configuration — two callers, both scanned the
one-member queue. -/
def raceCfg0 : RaceConfig := ⟨["a"], [⟨["a"], []⟩, ⟨["a"], []⟩]⟩

/-- Race witness: configuration after the first caller claims the
member. -/
def raceCfg1 : RaceConfig := ⟨[], [⟨[], ["a"]⟩, ⟨["a"], []⟩]⟩

/-- Race witness: final configuration — the second caller loses the race
and drops its candidate. -/
def raceCfg2 : RaceConfig := ⟨[], [⟨[], ["a"]⟩, ⟨[], []⟩]⟩

/-! ## Helper lemmas -/

/-- In the overwrite branch of `ZADD`, the first match in the rewritten
list carries the new score. -/
theorem find_map_overwrite (m : String) (s : Int) :
    ∀ l : List (String × Int), l.any (fun e => e.1 == m) = true →
      (l.map (fun e => if e.1 == m then (m, s) else e)).find?
        (fun e => e.1 == m) = some (m, s)
  | [], h => by simp at h
  | hd :: tl, h => by
    by_cases hhd : (hd.1 == m) = true
    · rw [List.map_cons, if_pos hhd]
      exact List.find?_cons_of_pos _ (by simp)
    · rw [List.map_cons, if_neg hhd]
      have hrec := find_map_overwrite m s tl (by
        simp only [List.any_cons, hhd, Bool.false_or] at h
        exact h)
      exact (@List.find?_cons_of_neg _ (fun e => e.1 == m) hd _ hhd).trans hrec

/-- After a `ZADD`, the member holds exactly the written score. -/
theorem zscore_zadd_self (z : ZSet) (m : String) (s : Int) :
    zscore (zadd z m s) m = some s := by
  unfold zadd zscore
  by_cases h : z.any (fun e => e.1 == m)
  · rw [if_pos h, find_map_overwrite m s z h]
    rfl
  · rw [if_neg h]
    have hz : z.find? (fun e => e.1 == m) = none := by
      rw [List.find?_eq_none]
      intro x hx
      simp only [List.any_eq_true] at h
      exact fun hc => h ⟨x, hx, hc⟩
    rw [List.find?_append, hz]
    simp [List.find?]

/-! ## C1 -/

/-- C1 counterexample: `MarkPostFailed` has no status guard, so it changes
the record of a post whose status is already `published` — the concrete
published post `pPublished` is mutated to `failed`. -/
theorem C1_markPostFailed_counterexample :
    pPublished.status = Status.published ∧
    markPostFailed "network error" 200 pPublished ≠ pPublished ∧
    (markPostFailed "network error" 200 pPublished).status = Status.failed := by
  refine ⟨rfl, ?_, rfl⟩
  intro h
  have := congrArg Post.status h
  simp [markPostFailed, pPublished] at this

/-- C1 amended: `PublishPost`, `ScheduleRetry`, `UpdatePost` and
`DeletePost` are guarded on `status = scheduled` and leave a post whose
status is already `published` or `failed` untouched, and `PublishPost`
moves only `scheduled` to `published` while `ScheduleRetry` preserves the
status; `MarkPostFailed`, however, is unguarded: it sets `status` to
`failed` whatever the current status, so it can change an already
`published` or `failed` record. -/
theorem C1_status_guards (p : Post) (now t sAt0 : Int) (e uid : String)
    (ti co ch : Option String) :
    (p.status ≠ Status.scheduled →
      publishPost now p = (p, none) ∧
      scheduleRetry t e now p = p ∧
      updatePost uid ti co ch (some sAt0) now p = (p, none) ∧
      deletePost uid p = (some p, false)) ∧
    (publishPost now p).1.status =
      (if p.status = Status.scheduled then Status.published else p.status) ∧
    (scheduleRetry t e now p).status = p.status ∧
    (markPostFailed e now p).status = Status.failed := by
  refine ⟨?_, ?_, ?_, rfl⟩
  · intro h
    refine ⟨?_, ?_, ?_, ?_⟩
    · simp [publishPost, h]
    · simp [scheduleRetry, h]
    · simp [updatePost, h]
    · simp [deletePost, h]
  · by_cases h : p.status = Status.scheduled <;> simp [publishPost, h]
  · by_cases h : p.status = Status.scheduled <;> simp [scheduleRetry, h]

/-- C1 witness: the guarded operations at a concrete published post. -/
theorem C1_status_guards_witness :
    publishPost 200 pPublished = (pPublished, none) ∧
    scheduleRetry 300 "err" 200 pPublished = pPublished ∧
    updatePost "user-1" none none none (some 400) 200 pPublished = (pPublished, none) ∧
    deletePost "user-1" pPublished = (some pPublished, false) :=
  (C1_status_guards pPublished 200 300 400 "err" "user-1" none none none).1 (by decide)

/-! ## C2 -/

/-- C2: on a failed publish with prior attempt count `a`, if `a + 1 >=
MaxRetries` (3) the worker marks the post failed with the error text and
does not re-enqueue; otherwise it sets the next retry to `now + 2 ^ (a +
1)` minutes and re-enqueues at that time — so three consecutive failures
of a fresh scheduled post give retry delays of exactly 2 minutes, then 4
minutes, then the transition to `failed` with no fourth retry
scheduled. -/
theorem C2_backoff_schedule :
    (∀ (a : Nat) (msg : String) (now : Int),
      a + 1 ≥ MaxRetries → handlePublishError a msg now = .markFailed msg) ∧
    (∀ (a : Nat) (msg : String) (now : Int),
      a + 1 < MaxRetries →
      handlePublishError a msg now = .scheduleAt (now + (2 ^ (a + 1) : Nat) * 60) msg) ∧
    (∀ (p0 : Post) (z0 : ZSet) (t1 t2 t3 : Int) (m1 m2 m3 : String),
      p0.status = Status.scheduled → p0.retryCount = 0 →
      ((applyPublishError p0 m1 t1 z0).1.status = Status.scheduled ∧
       (applyPublishError p0 m1 t1 z0).1.nextRetryAt = some (t1 + 2 * 60) ∧
       zscore (applyPublishError p0 m1 t1 z0).2 p0.id = some (t1 + 2 * 60)) ∧
      ((applyPublishError (applyPublishError p0 m1 t1 z0).1 m2 t2
          (applyPublishError p0 m1 t1 z0).2).1.status = Status.scheduled ∧
       (applyPublishError (applyPublishError p0 m1 t1 z0).1 m2 t2
          (applyPublishError p0 m1 t1 z0).2).1.nextRetryAt = some (t2 + 4 * 60) ∧
       zscore (applyPublishError (applyPublishError p0 m1 t1 z0).1 m2 t2
          (applyPublishError p0 m1 t1 z0).2).2 p0.id = some (t2 + 4 * 60)) ∧
      ((applyPublishError (applyPublishError (applyPublishError p0 m1 t1 z0).1 m2 t2
          (applyPublishError p0 m1 t1 z0).2).1 m3 t3
          (applyPublishError (applyPublishError p0 m1 t1 z0).1 m2 t2
            (applyPublishError p0 m1 t1 z0).2).2).1.status = Status.failed ∧
       (applyPublishError (applyPublishError (applyPublishError p0 m1 t1 z0).1 m2 t2
          (applyPublishError p0 m1 t1 z0).2).1 m3 t3
          (applyPublishError (applyPublishError p0 m1 t1 z0).1 m2 t2
            (applyPublishError p0 m1 t1 z0).2).2).1.lastError = some m3 ∧
       (applyPublishError (applyPublishError (applyPublishError p0 m1 t1 z0).1 m2 t2
          (applyPublishError p0 m1 t1 z0).2).1 m3 t3
          (applyPublishError (applyPublishError p0 m1 t1 z0).1 m2 t2
            (applyPublishError p0 m1 t1 z0).2).2).2 =
         (applyPublishError (applyPublishError p0 m1 t1 z0).1 m2 t2
            (applyPublishError p0 m1 t1 z0).2).2)) := by
  refine ⟨?_, ?_, ?_⟩
  · intro a msg now h
    unfold handlePublishError
    rw [if_pos h]
  · intro a msg now h
    unfold handlePublishError
    rw [if_neg (by omega)]
  · intro p0 z0 t1 t2 t3 m1 m2 m3 hst hrc
    have h1 : applyPublishError p0 m1 t1 z0 =
        Prod.mk
          { p0 with
              retryCount := 1
              lastError := some m1
              nextRetryAt := some (t1 + 2 * 60)
              updatedAt := t1 }
          (zadd z0 p0.id (t1 + 2 * 60)) := by
      unfold applyPublishError handlePublishError
      rw [hrc]
      norm_num [MaxRetries, scheduleRetry, hst, hrc]
    have h2 : applyPublishError (applyPublishError p0 m1 t1 z0).1 m2 t2
        (applyPublishError p0 m1 t1 z0).2 =
        Prod.mk
          { p0 with
              retryCount := 2
              lastError := some m2
              nextRetryAt := some (t2 + 4 * 60)
              updatedAt := t2 }
          (zadd (zadd z0 p0.id (t1 + 2 * 60)) p0.id (t2 + 4 * 60)) := by
      rw [h1]
      unfold applyPublishError handlePublishError
      norm_num [MaxRetries, scheduleRetry, hst]
    have h3 : applyPublishError (applyPublishError (applyPublishError p0 m1 t1 z0).1 m2 t2
        (applyPublishError p0 m1 t1 z0).2).1 m3 t3
        (applyPublishError (applyPublishError p0 m1 t1 z0).1 m2 t2
          (applyPublishError p0 m1 t1 z0).2).2 =
        Prod.mk
          { p0 with
              retryCount := 2
              status := Status.failed
              lastError := some m3
              nextRetryAt := some (t2 + 4 * 60)
              updatedAt := t3 }
          (zadd (zadd z0 p0.id (t1 + 2 * 60)) p0.id (t2 + 4 * 60)) := by
      rw [h2]
      unfold applyPublishError handlePublishError
      norm_num [MaxRetries, markPostFailed]
    refine ⟨⟨?_, ?_, ?_⟩, ⟨?_, ?_, ?_⟩, ⟨?_, ?_, ?_⟩⟩
    · rw [h1]; exact hst
    · rw [h1]
    · rw [h1]; exact zscore_zadd_self z0 p0.id (t1 + 2 * 60)
    · rw [h2]; exact hst
    · rw [h2]
    · rw [h2]; exact zscore_zadd_self _ p0.id (t2 + 4 * 60)
    · rw [h3]
    · rw [h3]
    · rw [h3, h2]

/-- C2 witness: the retry branches and the first failure of a concrete
fresh scheduled post. -/
theorem C2_backoff_schedule_witness :
    handlePublishError 2 "boom" 1000 = RetryOutcome.markFailed "boom" ∧
    handlePublishError 0 "boom" 1000 =
      RetryOutcome.scheduleAt (1000 + (2 ^ 1 : Nat) * 60) "boom" ∧
    ((applyPublishError pScheduled "e1" 1000 []).1.status = Status.scheduled ∧
     (applyPublishError pScheduled "e1" 1000 []).1.nextRetryAt = some (1000 + 2 * 60) ∧
     zscore (applyPublishError pScheduled "e1" 1000 []).2 pScheduled.id
       = some (1000 + 2 * 60)) :=
  ⟨C2_backoff_schedule.1 2 "boom" 1000 (by decide),
   C2_backoff_schedule.2.1 0 "boom" 1000 (by decide),
   (C2_backoff_schedule.2.2 pScheduled [] 1000 2000 3000 "e1" "e2" "e3"
      (by decide) (by decide)).1⟩

/-! ## C9 -/

/-- C9: `Remove` is idempotent — with a healthy store it returns no error
whether or not the id is present, removing twice leaves the same
membership as removing once, and removing a never-enqueued id leaves the
queue unchanged. -/
theorem C9_remove_idempotent (z : ZSet) (postID : String) :
    (Queue.Remove none z postID).2 = Except.ok () ∧
    (Queue.Remove none ((Queue.Remove none z postID).1) postID).2 = Except.ok () ∧
    (Queue.Remove none ((Queue.Remove none z postID).1) postID).1
      = (Queue.Remove none z postID).1 ∧
    (zscore z postID = none → (Queue.Remove none z postID).1 = z) := by
  refine ⟨rfl, rfl, ?_, ?_⟩
  · show List.filter _ (List.filter _ z) = List.filter _ z
    rw [List.filter_filter]
    simp
  · intro h
    show List.filter _ z = z
    rw [List.filter_eq_self]
    intro a ha
    unfold zscore at h
    have hfind : z.find? (fun e => e.1 == postID) = none := by
      cases hf : z.find? (fun e => e.1 == postID) with
      | none => rfl
      | some x =>
        rw [hf] at h
        simp at h
    have hnot := List.find?_eq_none.1 hfind a ha
    simpa [bne] using hnot

/-- C9 witness: removing an absent id from a concrete singleton queue. -/
theorem C9_remove_idempotent_witness :
    zscore [(uuidA, (5 : Int))] "other" = none ∧
    (Queue.Remove none [(uuidA, (5 : Int))] "other").1 = [(uuidA, (5 : Int))] :=
  ⟨by decide, (C9_remove_idempotent [(uuidA, (5 : Int))] "other").2.2.2 (by decide)⟩

/-! ## C6 -/

/-- C6: `notifyLocal` delivers the event to every channel registered under
the subject whose buffer has free space — each such channel gets exactly
one appended copy, a channel whose buffer already holds `chanCap` (10)
events is left unchanged (skipped for this event only), the other
channels of the subject are unaffected, and the sent count is the number
of channels with free space; in particular two subscriptions with room
each receive one copy. -/
theorem C6_notifyLocal_fanout (subs : List Buf) (u : PostUpdate) (i : Nat)
    (b1 b2 : Buf) :
    (notifyLocal subs u).1.length = subs.length ∧
    (notifyLocal subs u).1[i]? =
      (subs[i]?).map (fun b => if b.length < chanCap then b ++ [u] else b) ∧
    (notifyLocal subs u).2 = subs.countP (fun b => decide (b.length < chanCap)) ∧
    (b1.length < chanCap → b2.length < chanCap →
      notifyLocal [b1, b2] u = ([b1 ++ [u], b2 ++ [u]], 2)) := by
  have htry : ∀ b : Buf, (trySend b u).1 = if b.length < chanCap then b ++ [u] else b := by
    intro b
    by_cases hb : b.length < chanCap <;> simp [trySend, hb]
  have htry2 : (fun b : Buf => (trySend b u).2)
      = (fun b : Buf => decide (b.length < chanCap)) := by
    funext b
    by_cases hb : b.length < chanCap <;> simp [trySend, hb]
  refine ⟨?_, ?_, ?_, ?_⟩
  · simp [notifyLocal]
  · simp only [notifyLocal, List.getElem?_map]
    cases subs[i]? with
    | none => rfl
    | some b => simp [htry b]
  · simp only [notifyLocal, htry2]
    rw [List.countP_eq_length_filter]
  · intro hb1 hb2
    simp [notifyLocal, trySend, hb1, hb2]

/-- C6 witness: a full ten-event buffer is skipped while an empty buffer
of the same subject still receives the event. -/
theorem C6_notifyLocal_fanout_witness :
    (notifyLocal [List.replicate 10 ⟨"u", UpdateType.create⟩, []] ⟨"u", UpdateType.publish⟩).1[0]?
      = some (List.replicate 10 ⟨"u", UpdateType.create⟩) ∧
    (notifyLocal [List.replicate 10 ⟨"u", UpdateType.create⟩, []] ⟨"u", UpdateType.publish⟩).1[1]?
      = some [⟨"u", UpdateType.publish⟩] ∧
    notifyLocal [[], []] ⟨"u", UpdateType.publish⟩
      = ([[⟨"u", UpdateType.publish⟩], [⟨"u", UpdateType.publish⟩]], 2) := by
  refine ⟨?_, ?_,
    (C6_notifyLocal_fanout [[], []] ⟨"u", UpdateType.publish⟩ 0 [] []).2.2.2
      (by decide) (by decide)⟩
  · rw [(C6_notifyLocal_fanout [List.replicate 10 ⟨"u", UpdateType.create⟩, []]
      ⟨"u", UpdateType.publish⟩ 0 [] []).2.1]
    decide
  · rw [(C6_notifyLocal_fanout [List.replicate 10 ⟨"u", UpdateType.create⟩, []]
      ⟨"u", UpdateType.publish⟩ 1 [] []).2.1]
    decide

/-! ## C7 -/

/-- C7: the background relay of the notifier delivers each decodable bus
message through the local delivery path only — its effect trace is
exactly the local deliveries of the decoded events and contains no bus
publish, so no relayed event is ever re-broadcast. -/
theorem C7_relay_local_only (decode : String → Option PostUpdate) (msgs : List String) :
    listenRedisTrace decode msgs
      = (msgs.filterMap decode).map NotifierEffect.localDeliver ∧
    (listenRedisTrace decode msgs).filter NotifierEffect.isBusPublish = [] := by
  have hchar : listenRedisTrace decode msgs
      = (msgs.filterMap decode).map NotifierEffect.localDeliver := by
    induction msgs with
    | nil => rfl
    | cons m rest ih =>
      simp only [listenRedisTrace, List.map_cons, List.flatten_cons,
        List.filterMap_cons] at ih ⊢
      cases hd : decode m with
      | none => simpa [listenRedisStep, hd] using ih
      | some u => simp [listenRedisStep, hd, ih]
  refine ⟨hchar, ?_⟩
  rw [hchar, List.filter_map]
  have : (NotifierEffect.isBusPublish ∘ NotifierEffect.localDeliver)
      = fun _ => false := rfl
  rw [this]
  simp

/-! ## C8 -/

/-- C8: `hashPosts` of a nonempty list is the concatenation of the
id:status:update-timestamp triples, and the tick branch of `StreamPosts`
suppresses a push when both fingerprints match the previous push — so
presenting the same two lists on two consecutive ticks yields exactly one
push: the first tick pushes (when a fingerprint changed) and records the
hashes, the second tick with the same lists pushes nothing. -/
theorem C8_fingerprint_suppression :
    (∀ posts : List Post, posts ≠ [] →
      hashPosts posts = String.join (posts.map postTriple)) ∧
    (∀ (st : SSEState) (u h : List Post),
      hashPosts u ≠ st.lastUpcomingHash ∨ hashPosts h ≠ st.lastHistoryHash →
      streamStep st (SSEInput.tick u h)
        = (some ⟨hashPosts u, hashPosts h⟩, [SSEOutput.updatePush u h]) ∧
      streamStep ⟨hashPosts u, hashPosts h⟩ (SSEInput.tick u h)
        = (some ⟨hashPosts u, hashPosts h⟩, [])) := by
  constructor
  · intro posts hne
    unfold hashPosts String.join
    rw [if_neg (by simpa using hne), List.foldl_map]
  · intro st u h hne
    constructor
    · simp only [streamStep]
      rw [if_pos hne]
    · simp only [streamStep]
      rw [if_neg (by simp)]

/-- C8 witness: a concrete changed list pushes on the first tick and is
suppressed on the second. -/
theorem C8_fingerprint_suppression_witness :
    hashPosts [pPublished] ≠ sseSt0.lastUpcomingHash ∧
    streamStep sseSt0 (SSEInput.tick [pPublished] [])
      = (some ⟨hashPosts [pPublished], hashPosts []⟩,
         [SSEOutput.updatePush [pPublished] []]) ∧
    streamStep ⟨hashPosts [pPublished], hashPosts []⟩ (SSEInput.tick [pPublished] [])
      = (some ⟨hashPosts [pPublished], hashPosts []⟩, []) :=
  ⟨by decide,
   (C8_fingerprint_suppression.2 sseSt0 [pPublished] [] (Or.inl (by decide))).1,
   (C8_fingerprint_suppression.2 sseSt0 [pPublished] [] (Or.inl (by decide))).2⟩

/-! ## C4 -/

/-- When every per-member `ZREM` fails, the claim loop silently skips all
candidates and leaves the set untouched. -/
theorem claimLoop_all_err (parse : String → Option String) (e : String) :
    ∀ (l : List (String × Int)) (z : ZSet),
      claimLoop parse (fun _ => some e) l z = (z, [])
  | [], _ => rfl
  | (m, _) :: rest, z => by
    unfold claimLoop
    cases hp : parse m with
    | none => exact claimLoop_all_err parse e rest z
    | some pid => exact claimLoop_all_err parse e rest z

/-- C4 counterexample: a connectivity failure of the per-id `ZREM` inside
`GetDuePosts` does not surface — the scanned member parses, its removal
errors, and the call still returns `ok` with the id silently dropped, so
a store error other than a zero-removed lost race is swallowed. -/
theorem C4_zrem_error_swallowed_counterexample :
    zrangeByScoreDue [(uuidA, 0)] 100 100 = [(uuidA, (0 : Int))] ∧
    parse1 uuidA = some uuidA ∧
    zremFail uuidA = some "redis: connection refused" ∧
    Queue.GetDuePosts parse1 none zremFail [(uuidA, 0)] 100 100
      = Except.ok ([(uuidA, (0 : Int))], []) := by
  refine ⟨?_, ?_, rfl, ?_⟩
  · decide
  · decide
  · simp only [Queue.GetDuePosts]
    rw [show zremFail = fun _ => some "redis: connection refused" from rfl,
      claimLoop_all_err]

/-- C4 amended: `Enqueue`, `Remove` and `GetQueueLength` surface any
connectivity failure of their single store command, and `GetDuePosts`
surfaces a failure of its initial range scan; but a failure of the per-id
`ZREM` during the claim step of `GetDuePosts` — whether a connectivity
error or a zero removed count — is silently skipped for that id, not
surfaced. -/
theorem C4_error_surfacing (e : String) (z : ZSet) (postID : String) (t now : Int)
    (maxCount : Nat) (parse : String → Option String)
    (zremOutcome : String → Option String) :
    Queue.Enqueue (some e) z postID t = (z, Except.error e) ∧
    Queue.Remove (some e) z postID = (z, Except.error e) ∧
    Queue.GetQueueLength (some e) z = Except.error e ∧
    Queue.GetDuePosts parse (some e) zremOutcome z now maxCount = Except.error e ∧
    Queue.GetDuePosts parse none (fun _ => some e) z now maxCount
      = Except.ok (z, []) := by
  refine ⟨rfl, rfl, rfl, rfl, ?_⟩
  unfold Queue.GetDuePosts
  rw [claimLoop_all_err]

/-! ## C5 -/

/-- C5 counterexample: `StreamPosts` holds no Notifier subscription at
all — it registers no channel, so a `Notify` for the subject of the
connected client delivers to zero handler channels, the loop wakes only
on its tickers and the request context (a keepalive wake pushes no
snapshot), and disconnection terminates the loop with no subscription to
release. -/
theorem C5_no_notifier_subscription_counterexample :
    streamPostsNotifierSubscriptions = [] ∧
    (notifyLocal streamPostsNotifierSubscriptions ⟨"user-1", UpdateType.publish⟩).2 = 0 ∧
    (streamStep sseSt0 SSEInput.keepalive).2.filter SSEOutput.isUpdatePush = [] ∧
    streamStep sseSt0 SSEInput.ctxDone = (none, []) :=
  ⟨rfl, rfl, rfl, rfl⟩

/-- C5 amended: the handler pushes the initial snapshot unconditionally,
then pushes a fresh snapshot only when the 5 second update ticker fires
and a fingerprint changed; the 10 second keepalive ticker emits only a
keepalive; the loop terminates on disconnect; and the handler registers
no Notifier subscription, so a Notifier event cannot trigger a push
before the next tick and disconnect has no subscription to release. -/
theorem C5_stream_timer_driven (u h u2 h2 : List Post) (st : SSEState) :
    streamInit u h
      = (⟨hashPosts u, hashPosts h⟩,
         [SSEOutput.connected, SSEOutput.updatePush u h]) ∧
    streamStep st SSEInput.keepalive = (some st, [SSEOutput.keepaliveMsg]) ∧
    streamStep st SSEInput.ctxDone = (none, []) ∧
    streamStep st SSEInput.tickFetchErr = (some st, []) ∧
    (streamStep st (SSEInput.tick u2 h2)).2.countP SSEOutput.isUpdatePush
      = (if hashPosts u2 = st.lastUpcomingHash ∧ hashPosts h2 = st.lastHistoryHash
         then 0 else 1) ∧
    streamPostsNotifierSubscriptions = [] := by
  refine ⟨rfl, rfl, rfl, rfl, ?_, rfl⟩
  by_cases h1 : hashPosts u2 = st.lastUpcomingHash <;>
    by_cases hh2 : hashPosts h2 = st.lastHistoryHash <;>
      simp [streamStep, h1, hh2, SSEOutput.isUpdatePush]

/-! ## C10 -/

/-- Step equation of the claim loop: an unparseable candidate is skipped
with the set untouched. -/
theorem claimLoop_cons_none (parse zo : String → Option String) (m : String)
    (s : Int) (rest : List (String × Int)) (z : ZSet) (hp : parse m = none) :
    claimLoop parse zo ((m, s) :: rest) z = claimLoop parse zo rest z := by
  simp only [claimLoop, hp]

/-- Step equation of the claim loop: a `ZREM` connectivity error skips
the candidate with the set untouched. -/
theorem claimLoop_cons_err (parse zo : String → Option String) (m : String)
    (s : Int) (rest : List (String × Int)) (z : ZSet) (pid e : String)
    (hp : parse m = some pid) (ho : zo m = some e) :
    claimLoop parse zo ((m, s) :: rest) z = claimLoop parse zo rest z := by
  simp only [claimLoop, hp, ho]

/-- Step equation of the claim loop: a parsed candidate whose `ZREM`
reaches the store removes the member and claims the id exactly when the
removed count is nonzero. -/
theorem claimLoop_cons_some (parse zo : String → Option String) (m : String)
    (s : Int) (rest : List (String × Int)) (z : ZSet) (pid : String)
    (hp : parse m = some pid) (ho : zo m = none) :
    claimLoop parse zo ((m, s) :: rest) z
      = if (zrem z m).2 = 0 then claimLoop parse zo rest ((zrem z m).1)
        else ((claimLoop parse zo rest ((zrem z m).1)).1,
              pid :: (claimLoop parse zo rest ((zrem z m).1)).2) := by
  simp only [claimLoop, hp, ho]

/-- The claim loop only ever removes members: its final set is a sublist
of the input set. -/
theorem claimLoop_fst_sublist (parse zo : String → Option String) :
    ∀ (l : List (String × Int)) (z : ZSet),
      ((claimLoop parse zo l z).1).Sublist z
  | [], z => List.Sublist.refl z
  | (m, s) :: rest, z => by
    cases hp : parse m with
    | none =>
      rw [claimLoop_cons_none parse zo m s rest z hp]
      exact claimLoop_fst_sublist parse zo rest z
    | some pid =>
      cases ho : zo m with
      | some e =>
        rw [claimLoop_cons_err parse zo m s rest z pid e hp ho]
        exact claimLoop_fst_sublist parse zo rest z
      | none =>
        rw [claimLoop_cons_some parse zo m s rest z pid hp ho]
        by_cases h0 : (zrem z m).2 = 0
        · rw [if_pos h0]
          exact (claimLoop_fst_sublist parse zo rest _).trans (List.filter_sublist z)
        · rw [if_neg h0]
          exact (claimLoop_fst_sublist parse zo rest _).trans (List.filter_sublist z)

/-- The claim loop never removes a member that does not parse as a
UUID. -/
theorem claimLoop_keeps_unparsed (parse zo : String → Option String)
    (m : String) (s : Int) (hp : parse m = none) :
    ∀ (l : List (String × Int)) (z : ZSet), (m, s) ∈ z →
      (m, s) ∈ (claimLoop parse zo l z).1
  | [], _, hz => hz
  | (m2, s2) :: rest, z, hz => by
    cases hp2 : parse m2 with
    | none =>
      rw [claimLoop_cons_none parse zo m2 s2 rest z hp2]
      exact claimLoop_keeps_unparsed parse zo m s hp rest z hz
    | some pid =>
      cases ho : zo m2 with
      | some e =>
        rw [claimLoop_cons_err parse zo m2 s2 rest z pid e hp2 ho]
        exact claimLoop_keeps_unparsed parse zo m s hp rest z hz
      | none =>
        rw [claimLoop_cons_some parse zo m2 s2 rest z pid hp2 ho]
        have hne : m ≠ m2 := by
          intro hEq
          rw [hEq, hp2] at hp
          exact Option.noConfusion hp
        have hmem2 : (m, s) ∈ (zrem z m2).1 := by
          show (m, s) ∈ z.filter (fun e => e.1 != m2)
          exact List.mem_filter.mpr ⟨hz, by simpa [bne] using hne⟩
        by_cases h0 : (zrem z m2).2 = 0
        · rw [if_pos h0]
          exact claimLoop_keeps_unparsed parse zo m s hp rest _ hmem2
        · rw [if_neg h0]
          exact claimLoop_keeps_unparsed parse zo m s hp rest _ hmem2

/-- Every id the claim loop returns is the successful parse of some
member string. -/
theorem claimLoop_ids_parse (parse zo : String → Option String) :
    ∀ (l : List (String × Int)) (z : ZSet) (id0 : String),
      id0 ∈ (claimLoop parse zo l z).2 → ∃ m2, parse m2 = some id0
  | [], _, id0, h => absurd h (List.not_mem_nil id0)
  | (m2, s2) :: rest, z, id0, h => by
    cases hp2 : parse m2 with
    | none =>
      rw [claimLoop_cons_none parse zo m2 s2 rest z hp2] at h
      exact claimLoop_ids_parse parse zo rest z id0 h
    | some pid =>
      cases ho : zo m2 with
      | some e =>
        rw [claimLoop_cons_err parse zo m2 s2 rest z pid e hp2 ho] at h
        exact claimLoop_ids_parse parse zo rest z id0 h
      | none =>
        rw [claimLoop_cons_some parse zo m2 s2 rest z pid hp2 ho] at h
        by_cases h0 : (zrem z m2).2 = 0
        · rw [if_pos h0] at h
          exact claimLoop_ids_parse parse zo rest _ id0 h
        · rw [if_neg h0] at h
          cases List.mem_cons.1 h with
          | inl hEq => exact ⟨m2, hEq ▸ hp2⟩
          | inr hIn => exact claimLoop_ids_parse parse zo rest _ id0 hIn

/-- C10: a queue member that does not parse as a UUID is excluded from
the ids returned by `GetDuePosts` without an error and without being
removed — it stays in the set with its score, and when the scan limit
covers all due members it shows up again in the scan of every subsequent
poll. -/
theorem C10_malformed_member_retained (parse : String → Option String)
    (zremOutcome : String → Option String) (z : ZSet) (now : Int)
    (maxCount : Nat) (m : String) (s : Int)
    (hparse : parse m = none) (hmem : (m, s) ∈ z) :
    ∃ z1 ids, Queue.GetDuePosts parse none zremOutcome z now maxCount
        = Except.ok (z1, ids) ∧
      (m, s) ∈ z1 ∧
      (∀ id0 ∈ ids, ∃ m2, parse m2 = some id0) ∧
      (s ≤ now → (z.filter (fun e => e.2 ≤ now)).length ≤ maxCount →
        (m, s) ∈ zrangeByScoreDue z1 now maxCount) := by
  refine ⟨(claimLoop parse zremOutcome (zrangeByScoreDue z now maxCount) z).1,
          (claimLoop parse zremOutcome (zrangeByScoreDue z now maxCount) z).2,
          rfl, ?_, ?_, ?_⟩
  · exact claimLoop_keeps_unparsed parse zremOutcome m s hparse _ z hmem
  · intro id0 hid
    exact claimLoop_ids_parse parse zremOutcome _ z id0 hid
  · intro hdue hcount
    have hsub : ((claimLoop parse zremOutcome (zrangeByScoreDue z now maxCount) z).1).Sublist z :=
      claimLoop_fst_sublist parse zremOutcome _ z
    have hmem1 : (m, s) ∈ (claimLoop parse zremOutcome (zrangeByScoreDue z now maxCount) z).1 :=
      claimLoop_keeps_unparsed parse zremOutcome m s hparse _ z hmem
    have hmemf : (m, s) ∈
        ((claimLoop parse zremOutcome (zrangeByScoreDue z now maxCount) z).1).filter
          (fun e => e.2 ≤ now) :=
      List.mem_filter.mpr ⟨hmem1, by simpa using hdue⟩
    have hlen : (((claimLoop parse zremOutcome (zrangeByScoreDue z now maxCount) z).1).filter
        (fun e => e.2 ≤ now)).length ≤ maxCount :=
      le_trans (List.Sublist.length_le (hsub.filter _)) hcount
    unfold zrangeByScoreDue
    rw [List.take_of_length_le (by
      rw [(List.perm_insertionSort _ _).length_eq]
      exact hlen)]
    exact ((List.perm_insertionSort _ _).mem_iff).mpr hmemf

/-- C10 witness: a malformed member with an elapsed due time survives a
healthy poll and reappears in the next scan. -/
theorem C10_malformed_member_retained_witness :
    ∃ z1 ids, Queue.GetDuePosts parseA none (fun _ => none)
        [("bogus", (0 : Int))] 100 100 = Except.ok (z1, ids) ∧
      ("bogus", (0 : Int)) ∈ z1 ∧
      (∀ id0 ∈ ids, ∃ m2, parseA m2 = some id0) ∧
      ((0 : Int) ≤ 100 →
        (([("bogus", (0 : Int))] : ZSet).filter (fun e => e.2 ≤ 100)).length ≤ 100 →
        ("bogus", (0 : Int)) ∈ zrangeByScoreDue z1 100 100) :=
  C10_malformed_member_retained parseA (fun _ => none) [("bogus", 0)] 100 100
    "bogus" 0 (by decide) (by decide)

/-! ## C3 -/

open List in
/-- One race step preserves the multiset of members split between the
shared set and the claims: a claim moves its member from the shared set
into the claiming caller, a drop moves nothing. -/
theorem race_step_perm (parse : String → Option String) {cfg cfg2 : RaceConfig}
    (h : RaceStep parse cfg cfg2) :
    cfg2.shared ++ allClaimed cfg2 ~ cfg.shared ++ allClaimed cfg := by
  cases h with
  | drop shared pre post m rest claimed =>
    have heq : allClaimed ⟨shared, pre ++ ⟨rest, claimed⟩ :: post⟩
        = allClaimed ⟨shared, pre ++ ⟨m :: rest, claimed⟩ :: post⟩ := by
      simp [allClaimed]
    rw [heq]
  | claim shared pre post m rest claimed hparse hm =>
    have hmid : allClaimed ⟨shared.erase m, pre ++ ⟨rest, claimed ++ [m]⟩ :: post⟩
        ~ m :: allClaimed ⟨shared, pre ++ ⟨m :: rest, claimed⟩ :: post⟩ := by
      simp only [allClaimed, List.map_append, List.map_cons, List.flatten_append,
        List.flatten_cons]
      calc (pre.map RaceCaller.claimed).flatten
            ++ ((claimed ++ [m]) ++ (post.map RaceCaller.claimed).flatten)
          = ((pre.map RaceCaller.claimed).flatten ++ claimed)
            ++ (m :: (post.map RaceCaller.claimed).flatten) := by
            simp [List.append_assoc]
        _ ~ m :: (((pre.map RaceCaller.claimed).flatten ++ claimed)
            ++ (post.map RaceCaller.claimed).flatten) := List.perm_middle
        _ = m :: ((pre.map RaceCaller.claimed).flatten
            ++ (claimed ++ (post.map RaceCaller.claimed).flatten)) := by
            simp [List.append_assoc]
    calc shared.erase m ++ allClaimed ⟨shared.erase m, pre ++ ⟨rest, claimed ++ [m]⟩ :: post⟩
        ~ shared.erase m
            ++ (m :: allClaimed ⟨shared, pre ++ ⟨m :: rest, claimed⟩ :: post⟩) :=
          List.Perm.append_left _ hmid
      _ ~ m :: (shared.erase m ++ allClaimed ⟨shared, pre ++ ⟨m :: rest, claimed⟩ :: post⟩) :=
          List.perm_middle
      _ ~ shared ++ allClaimed ⟨shared, pre ++ ⟨m :: rest, claimed⟩ :: post⟩ :=
          List.Perm.append_right _ (List.perm_cons_erase hm).symm

open List in
/-- Along any interleaving the shared set plus all claims stays a
permutation of its initial value. -/
theorem race_reach_perm (parse : String → Option String) {cfg0 cfg : RaceConfig}
    (h : RaceReach parse cfg0 cfg) :
    cfg.shared ++ allClaimed cfg ~ cfg0.shared ++ allClaimed cfg0 := by
  induction h with
  | refl => exact List.Perm.refl _
  | tail _ hstep ih => exact (race_step_perm parse hstep).trans ih

open List in
/-- C3: for any number of callers racing `GetDuePosts` against the same
queue with pairwise distinct members, every interleaving of claim and
skip steps keeps the claimed members inside the initial queue membership,
pairwise disjoint between callers, and duplicate-free within each caller
— so no member is ever returned to two callers. -/
theorem C3_at_most_one_claim (parse : String → Option String) (q0 : List String)
    (cs0 : List RaceCaller) (cfg : RaceConfig)
    (hq : q0.Nodup) (hc0 : ∀ c ∈ cs0, c.claimed = [])
    (hreach : RaceReach parse ⟨q0, cs0⟩ cfg) :
    (∀ m ∈ allClaimed cfg, m ∈ q0) ∧
    (cfg.callers.map RaceCaller.claimed).Pairwise List.Disjoint ∧
    (∀ c ∈ cfg.callers, c.claimed.Nodup) := by
  have hac0 : allClaimed ⟨q0, cs0⟩ = [] := by
    unfold allClaimed
    rw [List.flatten_eq_nil_iff]
    intro l hl
    obtain ⟨c, hc, rfl⟩ := List.mem_map.1 hl
    exact hc0 c hc
  have hperm : cfg.shared ++ allClaimed cfg ~ q0 := by
    have h := race_reach_perm parse hreach
    rw [hac0] at h
    simpa using h
  have hnd : (cfg.shared ++ allClaimed cfg).Nodup := hperm.nodup_iff.mpr hq
  have hclaims : (allClaimed cfg).Nodup := (List.nodup_append.1 hnd).2.1
  have hflat := List.nodup_flatten.1 hclaims
  refine ⟨?_, hflat.2, ?_⟩
  · intro m hm
    exact hperm.mem_iff.1 (List.mem_append_right _ hm)
  · intro c hc
    exact hflat.1 _ (List.mem_map_of_mem _ hc)

/-- C3 witness: one caller claims the single member, the other loses the
race and drops it. -/
theorem C3_at_most_one_claim_witness :
    (∀ m ∈ allClaimed raceCfg2, m ∈ ["a"]) ∧
    (raceCfg2.callers.map RaceCaller.claimed).Pairwise List.Disjoint ∧
    (∀ c ∈ raceCfg2.callers, c.claimed.Nodup) :=
  C3_at_most_one_claim parseA ["a"] [⟨["a"], []⟩, ⟨["a"], []⟩] raceCfg2
    (by decide) (by decide)
    (by
      have h1 : RaceStep parseA ⟨["a"], [⟨["a"], []⟩, ⟨["a"], []⟩]⟩ raceCfg1 := by
        have hc := @RaceStep.claim parseA ["a"] [] [⟨["a"], []⟩] "a" [] []
          (by decide) (by decide)
        simpa [raceCfg1] using hc
      have h2 : RaceStep parseA raceCfg1 raceCfg2 := by
        have hd := @RaceStep.drop parseA [] [⟨[], ["a"]⟩] [] "a" [] []
        simpa [raceCfg1, raceCfg2] using hd
      exact Relation.ReflTransGen.tail (Relation.ReflTransGen.single h1) h2)
